import Mathlib

set_option maxRecDepth 8192

/-!
Verification development for the site-crawler program (`src/main.py`).

The crawler is embedded shallowly:

* Python strings are `String`, dictionaries are insertion-ordered association
  lists, sets are duplicate-free lists with insertion order.
* `urllib.parse.urlparse` / `urljoin` (the external URL library the code
  calls) are modelled after CPython's `urllib.parse`, including the
  `ValueError` raised by `urlsplit` on a netloc with mismatched square
  brackets; fallible code returns `Except String`.  Path parameters
  (the `;` component), control-character stripping and the extra bracketed
  host validation of newer CPython are not modelled: no claim depends on
  them.
* The HTTP session is an oracle `World : String → FetchResult`: a fetch
  either completes with a final status and body (after redirects), fails
  with a `requests` exception, or is cut short by a `KeyboardInterrupt`.
* Wall-clock time (`time.time()`) is passed explicitly as a `Nat` counting
  centiseconds, so that the `{duration:.2f}` formatting of the report is a
  total function of it.
-/

/-! ## Basic string helpers -/

/-- Lower-case a string character-wise (models `str.lower` on ASCII data). -/
def lowerStr (s : String) : String := String.mk (s.data.map Char.toLower)

/-- Does `suf` occur as a suffix of `s`?  Models `str.endswith`. -/
def strEndsWith (s suf : String) : Bool := suf.data.isSuffixOf s.data

/-- Does `needle` occur as a contiguous substring of `hay`?  Models
Python's `in` on strings. -/
def containsSubAux (needle : List Char) : List Char → Bool
  | [] => needle.isPrefixOf []
  | c :: rest => needle.isPrefixOf (c :: rest) || containsSubAux needle rest

/-- `containsSub hay needle` is true when `needle` occurs in `hay`. -/
def containsSub (hay needle : String) : Bool := containsSubAux needle.data hay.data

/-- Strip every trailing `/` (models `str.rstrip("/")`). -/
def rstripSlashes (s : String) : String :=
  String.mk ((s.data.reverse.dropWhile (fun c => c = '/')).reverse)

/-- Split at every occurrence of `sep` (models Python `str.split(sep)` for a
one-character separator: `"".split` gives `[""]`, separators at the ends
give empty fields). -/
def splitCharAux (sep : Char) : List Char → List Char → List String
  | [], acc => [String.mk acc.reverse]
  | c :: rest, acc =>
    if c = sep then String.mk acc.reverse :: splitCharAux sep rest []
    else splitCharAux sep rest (c :: acc)

/-- `s.split(sep)` for a one-character separator. -/
def splitChar (sep : Char) (s : String) : List String := splitCharAux sep s.data []

/-! ## `urllib.parse` model -/

/-- The components returned by `urllib.parse.urlparse` (path parameters
omitted, see the file header). -/
structure UrlParts where
  scheme : String
  netloc : String
  path : String
  query : String
  fragment : String
deriving DecidableEq

/-- A character allowed after the first one of a URL scheme
(`urllib.parse.scheme_chars`). -/
def schemeChar (c : Char) : Bool := c.isAlpha || c.isDigit || c = '+' || c = '-' || c = '.'

/-- Split a leading `scheme:` off a URL, as `urlsplit` does: there must be a
`:`, the first character must be an ASCII letter and the rest of the prefix
must be scheme characters; the scheme is lower-cased.  Returns
`(scheme, rest)` with `scheme = ""` when there is none. -/
def splitScheme (url : String) : String × String :=
  let l := url.data
  match l.findIdx? (fun c => c = ':') with
  | none => ("", url)
  | some i =>
    if 0 < i
        && (match l.head? with | some c => c.isAlpha | none => false)
        && ((l.drop 1).take (i - 1)).all schemeChar
    then (lowerStr (String.mk (l.take i)), String.mk (l.drop (i + 1)))
    else ("", url)

/-- A character that terminates the netloc (`urllib.parse._splitnetloc`
stops at the first of `/?#`). -/
def netlocDelim (c : Char) : Bool := c = '/' || c = '?' || c = '#'

/-- The mismatched-square-bracket test of `urlsplit`, whose failure raises
`ValueError("Invalid IPv6 URL")`. -/
def bracketMismatch (nl : List Char) : Bool :=
  (nl.contains '[' && !nl.contains ']') || (nl.contains ']' && !nl.contains '[')

/-- Split the part of the URL after scheme and netloc into path, query and
fragment: `urlsplit` first splits at the first `#`, then the remainder at
the first `?`. -/
def mkParts (scheme netloc : String) (l : List Char) : UrlParts :=
  let noFrag := l.takeWhile (fun c => c ≠ '#')
  let frag := match l.dropWhile (fun c => c ≠ '#') with | [] => [] | _ :: t => t
  let path := noFrag.takeWhile (fun c => c ≠ '?')
  let q := match noFrag.dropWhile (fun c => c ≠ '?') with | [] => [] | _ :: t => t
  ⟨scheme, netloc, String.mk path, String.mk q, String.mk frag⟩

/-- Model of `urllib.parse.urlparse url` with a default scheme (the second
argument CPython's `urlparse` takes, used by `urljoin`): an `Except.error`
is a raised `ValueError`. -/
def urlparseD (defaultScheme : String) (url : String) : Except String UrlParts :=
  let (sch, rest) := splitScheme url
  let scheme := if sch = "" then defaultScheme else sch
  let l := rest.data
  if l.take 2 = ['/', '/'] then
    let nl := (l.drop 2).takeWhile (fun c => !netlocDelim c)
    let after := (l.drop 2).dropWhile (fun c => !netlocDelim c)
    if bracketMismatch nl then Except.error "Invalid IPv6 URL"
    else Except.ok (mkParts scheme (String.mk nl) after)
  else Except.ok (mkParts scheme "" l)

/-- `urllib.parse.urlparse` with no default scheme, as `main.py` calls it. -/
def urlparse (url : String) : Except String UrlParts := urlparseD "" url

/-- Model of `urllib.parse.urlunsplit`, used by `urljoin` to reassemble the
resolved URL. -/
def urlunsplit (p : UrlParts) : String :=
  let url := p.path
  let url :=
    if p.netloc ≠ "" || (url ≠ "" && url.data.take 2 = ['/', '/']) then
      "//" ++ p.netloc ++ (if url ≠ "" && url.data.take 1 ≠ ['/'] then "/" ++ url else url)
    else url
  let url := if p.scheme ≠ "" then p.scheme ++ ":" ++ url else url
  let url := if p.query ≠ "" then url ++ "?" ++ p.query else url
  if p.fragment ≠ "" then url ++ "#" ++ p.fragment else url

/-- `urllib.parse.uses_relative`. -/
def uses_relative : List String :=
  ["", "ftp", "http", "gopher", "nntp", "imap", "wais", "file", "https",
   "shttp", "mms", "prospero", "rtsp", "rtspu", "sftp", "svn", "svn+ssh",
   "ws", "wss"]

/-- `urllib.parse.uses_netloc`. -/
def uses_netloc : List String :=
  ["", "ftp", "http", "gopher", "nntp", "telnet", "imap", "wais", "file",
   "mms", "https", "shttp", "snews", "prospero", "rtsp", "rtspu", "rsync",
   "svn", "svn+ssh", "sftp", "nfs", "git", "git+ssh", "ws", "wss"]

/-- `segments[1:-1] = filter(None, segments[1:-1])` of `urljoin`: drop empty
strings from all but the first and last element. -/
def filterMidAux : List String → List String
  | [] => []
  | [b] => [b]
  | b :: rest => if b = "" then filterMidAux rest else b :: filterMidAux rest

/-- See `filterMidAux`; keeps the head untouched. -/
def filterMid : List String → List String
  | [] => []
  | [a] => [a]
  | a :: rest => a :: filterMidAux rest

/-- The `..`/`.` resolution loop of `urljoin` (pop on `..`, skip `.`,
append otherwise; popping an empty stack is ignored). -/
def resolveSegs (segs : List String) : List String :=
  segs.foldl
    (fun acc seg =>
      if seg = ".." then acc.dropLast
      else if seg = "." then acc
      else acc ++ [seg]) []

/-- Model of `urllib.parse.urljoin` (RFC 3986 reference resolution as CPython
implements it).  An `Except.error` is a `ValueError` raised by the inner
`urlparse`. -/
def urljoin (base url : String) : Except String String :=
  if base = "" then Except.ok url
  else if url = "" then Except.ok base
  else do
    let b ← urlparseD "" base
    let u ← urlparseD b.scheme url
    if u.scheme == b.scheme && uses_relative.contains u.scheme then
      if uses_netloc.contains u.scheme && u.netloc != "" then
        Except.ok (urlunsplit u)
      else
        let netloc := if uses_netloc.contains u.scheme then b.netloc else u.netloc
        if u.path = "" then
          Except.ok (urlunsplit ⟨u.scheme, netloc, b.path,
            (if u.query = "" then b.query else u.query), u.fragment⟩)
        else
          let base_parts := splitChar '/' b.path
          let base_parts :=
            if base_parts.getLast? != some "" then base_parts.dropLast else base_parts
          let segments :=
            if u.path.data.take 1 = ['/'] then splitChar '/' u.path
            else filterMid (base_parts ++ splitChar '/' u.path)
          let resolved := resolveSegs segments
          let resolved :=
            if segments.getLast? == some "." || segments.getLast? == some ".." then
              resolved ++ [""]
            else resolved
          let joined := String.intercalate "/" resolved
          Except.ok (urlunsplit ⟨u.scheme, netloc,
            (if joined = "" then "/" else joined), u.query, u.fragment⟩)
    else Except.ok url

/-! ## `SiteCrawler.is_valid_url` -/

/-- The `skip_extensions` set of `SiteCrawler.is_valid_url`. -/
def skip_extensions : List String :=
  [".pdf", ".zip", ".exe", ".dmg", ".pkg", ".jpg", ".jpeg", ".png", ".gif",
   ".svg", ".ico", ".css", ".js", ".xml"]

/-- The `skip_paths` list of `SiteCrawler.is_valid_url`. -/
def skip_paths : List String := ["/api/", "/admin/", "/wp-admin/", "/cgi-bin/", "/mail/"]

/-- `SiteCrawler.is_valid_url` (`main.py` lines 61-98): same-domain check,
scheme check, excluded extensions (case-insensitive suffix of the path),
excluded path substrings.  `self.domain` is passed explicitly; an
`Except.error` is the `ValueError` that `urlparse` can raise. -/
def is_valid_url (domain : String) (url : String) : Except String Bool :=
  match urlparse url with
  | Except.error e => Except.error e
  | Except.ok parsed =>
    if parsed.netloc ≠ domain then Except.ok false
    else if !(["http", "https"].contains parsed.scheme) then Except.ok false
    else if skip_extensions.any (fun ext => strEndsWith (lowerStr parsed.path) ext) then
      Except.ok false
    else if skip_paths.any
        (fun skip_path => containsSub (lowerStr parsed.path) skip_path) then
      Except.ok false
    else Except.ok true

/-! ## `SiteCrawler.extract_links` -/

/-- Is this character one of the two quote characters of the href regex
(`"` is code 34, `'` is code 39)? -/
def isQuoteChar (c : Char) : Bool := c.toNat = 34 || c.toNat = 39

/-- Scan for the closing quote of a `href=` match: returns the captured
characters before the first quote character and the characters after it,
or `none` when no quote character follows (the regex then fails). -/
def takeCapture : List Char → Option (List Char × List Char)
  | [] => none
  | c :: rest =>
    if isQuoteChar c then some ([], rest)
    else
      match takeCapture rest with
      | some (cap, r) => some (c :: cap, r)
      | none => none

/-- One fuelled step of `re.findall` with the pattern
`href=["given-quote]([^quotes]+)[quote]`: at each position try to match
`href=`, an opening quote, a non-empty capture and a closing quote; on
success continue after the match, on failure advance one character.  The
fuel only bounds the recursion; `hrefMatches` supplies enough of it. -/
def hrefMatchesF : Nat → List Char → List (List Char)
  | 0, _ => []
  | _ + 1, [] => []
  | fuel + 1, c :: rest =>
    match c :: rest with
    | 'h' :: 'r' :: 'e' :: 'f' :: '=' :: q :: tail =>
      if isQuoteChar q then
        match takeCapture tail with
        | some (cap, r) =>
          if cap ≠ [] then cap :: hrefMatchesF fuel r
          else hrefMatchesF fuel rest
        | none => hrefMatchesF fuel rest
      else hrefMatchesF fuel rest
    | _ => hrefMatchesF fuel rest

/-- `re.findall(r'href=["...]([^"...]+)["...]', html_content)` of
`SiteCrawler.extract_links`. -/
def hrefMatches (s : List Char) : List (List Char) := hrefMatchesF s.length s

/-- `set.add`: append if not already present (Python sets are modelled as
duplicate-free lists in discovery order). -/
def listAdd (l : List String) (u : String) : List String :=
  if u ∈ l then l else l ++ [u]

/-- The `for match in matches:` loop of `SiteCrawler.extract_links`
(`main.py` lines 110-119): resolve the match against the page URL, strip
query and fragment by rebuilding `scheme://netloc/path`, add the result to
the set when `is_valid_url` accepts it.  Any exception raised by a step
(`Except.error`) aborts the whole loop, as in Python. -/
def extractLoop (domain current_url : String) :
    List (List Char) → List String → Except String (List String)
  | [], links => Except.ok links
  | m :: rest, links =>
    match urljoin current_url (String.mk m) with
    | Except.error e => Except.error e
    | Except.ok absolute_url =>
      match urlparse absolute_url with
      | Except.error e => Except.error e
      | Except.ok parsed =>
        let clean_url := parsed.scheme ++ "://" ++ parsed.netloc ++ parsed.path
        match is_valid_url domain clean_url with
        | Except.error e => Except.error e
        | Except.ok ok =>
          extractLoop domain current_url rest
            (if ok then listAdd links clean_url else links)

/-- `SiteCrawler.extract_links` (`main.py` lines 100-121): find the href
matches and run the resolution loop on them with an initially empty set.
An `Except.error` is an exception escaping the method (possible through
`urljoin`/`urlparse`/`is_valid_url`). -/
def extract_links (domain : String) (html_content : String) (current_url : String) :
    Except String (List String) :=
  extractLoop domain current_url (hrefMatches html_content.data) []

/-! ## Crawler state, fetch oracle and `crawl_page` -/

/-- Outcome of `self.session.get(url, ...)` for one URL.

* `response status body`: the request completed; `status` is the final
  status code after redirect resolution, `body` is `response.text`.
* `failure`: a `requests.exceptions.RequestException` (or any other
  `Exception`) was raised during the request.
* `interrupt`: a `KeyboardInterrupt` arrived during the request.
  `KeyboardInterrupt` derives from `BaseException`, so neither `except`
  clause of `crawl_page` catches it and it unwinds to `main`. -/
inductive FetchResult where
  | response (status : Nat) (body : String)
  | failure
  | interrupt
deriving DecidableEq

/-- The network, as a deterministic per-URL oracle. -/
def World := String → FetchResult

/-- A world whose completed exchanges never carry the sentinel status `0`
(real HTTP status lines are three-digit codes; `0` is reserved by the
crawler for transport failures). -/
def WorldOk (w : World) : Prop :=
  ∀ u st body, w u = FetchResult.response st body → st ≠ 0

/-- The mutable attributes of a `SiteCrawler` instance.  `start_time` and
all times are `Nat` centiseconds. -/
structure SiteCrawler where
  base_url : String
  domain : String
  max_depth : Nat
  delay : Nat
  visited_urls : List String
  url_status : List (String × Nat)
  url_depth : List (String × Nat)
  error_urls : List (Nat × List String)
  total_requests : Nat
  start_time : Nat
deriving DecidableEq

/-- Dictionary lookup (`d.get(k)` / `d[k]`). -/
def dget : List (String × Nat) → String → Option Nat
  | [], _ => none
  | (k', v) :: rest, k => if k' = k then some v else dget rest k

/-- Dictionary assignment `d[k] = v`: overwrite in place if the key exists,
append otherwise (Python dicts keep insertion order). -/
def dset : List (String × Nat) → String → Nat → List (String × Nat)
  | [], k, v => [(k, v)]
  | (k', v') :: rest, k, v =>
    if k' = k then (k, v) :: rest else (k', v') :: dset rest k v

/-- `defaultdict(list)` read: the list stored at `c`, `[]` if absent. -/
def errGet : List (Nat × List String) → Nat → List String
  | [], _ => []
  | (c', l) :: rest, c => if c' = c then l else errGet rest c

/-- `self.error_urls[c].append(u)` on a `defaultdict(list)`. -/
def errAppend : List (Nat × List String) → Nat → String → List (Nat × List String)
  | [], c, u => [(c, [u])]
  | (c', l) :: rest, c, u =>
    if c' = c then (c', l ++ [u]) :: rest else (c', l) :: errAppend rest c u

/-- `main.py` lines 128-129: `self.visited_urls.add(url)` (fresh by the
guard, hence an append in discovery order) and `self.url_depth[url] = depth`. -/
def visitStep (url : String) (depth : Nat) (s : SiteCrawler) : SiteCrawler :=
  { s with
    visited_urls := s.visited_urls ++ [url],
    url_depth := dset s.url_depth url depth }

/-- `main.py` lines 159-167, either `except` clause:
`self.url_status[url] = 0` and `self.error_urls[0].append(url)`. -/
def failStep (url : String) (s : SiteCrawler) : SiteCrawler :=
  { s with
    url_status := dset s.url_status url 0,
    error_urls := errAppend s.error_urls 0 url }

/-- `main.py` lines 136-145 for a completed request:
`self.total_requests += 1`, `self.url_status[url] = status_code` and, when
`status_code >= 400`, `self.error_urls[status_code].append(url)`. -/
def respStep (url : String) (status : Nat) (s : SiteCrawler) : SiteCrawler :=
  let s1 := { s with total_requests := s.total_requests + 1 }
  let s2 := { s1 with url_status := dset s1.url_status url status }
  if 400 ≤ status then { s2 with error_urls := errAppend s2.error_urls status url }
  else s2

/-- The body of the `for link in links:` loop of `crawl_page`
(`main.py` lines 151-155), with `f` the recursive call at depth+1.
A `true` flag on the accumulator means a `KeyboardInterrupt` is unwinding:
the remaining iterations never run. -/
def crawlFold (f : String → SiteCrawler → SiteCrawler × Bool)
    (acc : SiteCrawler × Bool) (link : String) : SiteCrawler × Bool :=
  if acc.2 then acc
  else if link ∈ acc.1.visited_urls then acc
  else f link acc.1

/-- `SiteCrawler.crawl_page` (`main.py` lines 123-167), with explicit fuel
for the recursion.  Each recursive call is at `depth + 1` and is guarded by
`depth < max_depth`, so `max_depth + 1 - depth` units of fuel (what the
`crawl_page` wrapper supplies) are never exhausted: a call with zero fuel
only arises at `depth > max_depth`, where the Python function also returns
immediately, with no state change.  The returned flag is `true` when a
`KeyboardInterrupt` is unwinding through the call. -/
def crawl_pageF (w : World) : Nat → String → Nat → SiteCrawler → SiteCrawler × Bool
  | 0, _, _, s => (s, false)
  | fuel + 1, url, depth, s =>
    if depth > s.max_depth ∨ url ∈ s.visited_urls then (s, false)
    else
      let s1 := visitStep url depth s
      match w url with
      | FetchResult.interrupt => (s1, true)
      | FetchResult.failure => (failStep url s1, false)
      | FetchResult.response status body =>
        let s2 := respStep url status s1
        if status = 200 ∧ depth < s.max_depth then
          match extract_links s.domain body url with
          | Except.error _ => (s2, false)  -- inner `except`: log and continue
          | Except.ok links =>
            links.foldl (crawlFold (fun l st => crawl_pageF w fuel l (depth + 1) st))
              (s2, false)
        else (s2, false)

/-- `SiteCrawler.crawl_page` at its natural fuel. -/
def crawl_page (w : World) (url : String) (depth : Nat) (s : SiteCrawler) :
    SiteCrawler × Bool :=
  crawl_pageF w (s.max_depth + 1 - depth) url depth s

/-- `SiteCrawler.crawl` (`main.py` lines 169-176): crawl the base URL at
depth 0. -/
def SiteCrawler.crawl (w : World) (s : SiteCrawler) : SiteCrawler × Bool :=
  crawl_page w s.base_url 0 s

/-- `SiteCrawler.__init__`: strip trailing slashes from the base URL, derive
the domain from the unstripped one, start with an empty ledger. -/
def SiteCrawler.init (base_url : String) (max_depth : Nat) (delay : Nat)
    (start_time : Nat) : Except String SiteCrawler := do
  let p ← urlparse base_url
  Except.ok
    { base_url := rstripSlashes base_url
      domain := p.netloc
      max_depth := max_depth
      delay := delay
      visited_urls := []
      url_status := []
      url_depth := []
      error_urls := []
      total_requests := 0
      start_time := start_time }

/-! ## `SiteCrawler.generate_report` -/

/-- Left-justify to width `w` with spaces (`f-string` `:<{w}`). -/
def padRight (s : String) (w : Nat) : String :=
  s ++ String.mk (List.replicate (w - s.length) ' ')

/-- `c * n` of an f-string (a run of one character). -/
def repeatChar (c : Char) (n : Nat) : String := String.mk (List.replicate n c)

/-- `f"{duration:.2f}"` with the duration counted in centiseconds. -/
def fmtCenti (d : Nat) : String :=
  toString (d / 100) ++ "." ++ (if d % 100 < 10 then "0" else "") ++ toString (d % 100)

/-- Models `time.strftime("%Y-%m-%d %H:%M:%S", time.localtime(t))`: an
abstract deterministic rendering of the start timestamp (calendar
formatting is irrelevant to every claim). -/
def formatStartTime (t : Nat) : String := toString t

/-- `max(self.url_depth.values()) if self.url_depth else 0`. -/
def maxDepthReached (s : SiteCrawler) : Nat :=
  (s.url_depth.map (fun p => p.2)).foldl Nat.max 0

/-- The `metrics` table of `generate_report` (`main.py` lines 193-207);
`now` is the value of `time.time()` at the call. -/
def reportMetrics (s : SiteCrawler) (now : Nat) : List (String × String) :=
  [("Base URL", s.base_url),
   ("Domain", s.domain),
   ("Start Time", formatStartTime s.start_time),
   ("Duration", fmtCenti (now - s.start_time) ++ " seconds"),
   ("Total Requests", toString s.total_requests),
   ("Total Pages Visited", toString s.visited_urls.length),
   ("Max Depth Reached", toString (maxDepthReached s))]

/-- `max(len(metric) for metric, _ in metrics)` (the list is non-empty, so
folding `Nat.max` from 0 agrees with Python's `max`). -/
def maxMetricWidth (ms : List (String × String)) : Nat :=
  ms.foldl (fun a p => Nat.max a p.1.length) 0

/-- Insert into a sorted duplicate-free list of numbers. -/
def insertSortedNat (n : Nat) : List Nat → List Nat
  | [] => [n]
  | m :: rest =>
    if n < m then n :: m :: rest
    else if n = m then m :: rest
    else m :: insertSortedNat n rest

/-- `sorted(...)` over the distinct elements of a list of numbers: the
iteration order of `sorted(status_counts.keys())` and
`sorted(self.error_urls.keys())`. -/
def sortedKeys (l : List Nat) : List Nat := l.foldl (fun acc n => insertSortedNat n acc) []

/-- Count the occurrences of `v` (a `Counter` read). -/
def countVal (l : List Nat) (v : Nat) : Nat := (l.filter (fun x => x = v)).length

/-- The human label of a status code in the summary table. -/
def statusDesc (c : Nat) : String :=
  if c = 0 then "FAILED"
  else if c = 200 then "OK"
  else if 400 ≤ c then "ERROR"
  else "OTHER"

/-- String insertion into a lexicographically sorted list (Python `sorted`
on strings compares code points, as `≤` on `String` does). -/
def insertStr (u : String) : List String → List String
  | [] => [u]
  | v :: rest => if u ≤ v then u :: v :: rest else v :: insertStr u rest

/-- `sorted(...)` on strings. -/
def sortStr (l : List String) : List String := l.foldr insertStr []

/-- `self.url_status.get(url, "Unknown")` rendered inside `[...]`. -/
def statusStr : Option Nat → String
  | some c => toString c
  | none => "Unknown"

/-- The HTTP STATUS CODE SUMMARY section. -/
def statusSection (s : SiteCrawler) : List String :=
  let vals := s.url_status.map (fun p => p.2)
  ["## HTTP STATUS CODE SUMMARY\n",
   "| Status Code | Description | Count |",
   "|-------------|-------------|-------|"]
  ++ (sortedKeys vals).map
      (fun c => "| " ++ toString c ++ " | " ++ statusDesc c ++ " | "
        ++ toString (countVal vals c) ++ " |")
  ++ [""]

/-- The DETAILED ERROR REPORT section (absent when `error_urls` is empty). -/
def errorSection (s : SiteCrawler) : List String :=
  if s.error_urls = [] then []
  else
    ["## DETAILED ERROR REPORT\n"]
    ++ ((sortedKeys (s.error_urls.map (fun p => p.1))).map
        (fun c =>
          (if c = 0 then "### FAILED REQUESTS\n"
           else "#### HTTP " ++ toString c ++ " ERRORS\n")
          :: (errGet s.error_urls c).map (fun u => "- " ++ u)
          ++ [""])).flatten

/-- The ALL VISITED PAGES BY DEPTH section. -/
def depthSection (s : SiteCrawler) : List String :=
  ["## ALL VISITED PAGES BY DEPTH\n"]
  ++ ((List.range (if s.url_depth = [] then 0 else maxDepthReached s + 1)).map
      (fun d =>
        let urls_at_depth := (s.url_depth.filter (fun p => p.2 = d)).map (fun p => p.1)
        if urls_at_depth = [] then []
        else
          ("### Depth " ++ toString d ++ " (" ++ toString urls_at_depth.length
            ++ " pages)\n")
          :: (sortStr urls_at_depth).map
              (fun u => "- [" ++ statusStr (dget s.url_status u) ++ "] " ++ u)
          ++ [""])).flatten

/-- The lines `generate_report` accumulates in `report` before joining
(`main.py` lines 178-266).  `partialMark` is the `is_partial` argument and
`now` the value of `time.time()` at the call. -/
def reportLines (s : SiteCrawler) (partialMark : Bool) (now : Nat) : List String :=
  ["# Site Crawler Report: " ++ s.base_url ++ "\n"]
  ++ (if partialMark then ["⚠️ **PARTIAL REPORT** - Crawling was interrupted\n"] else [])
  ++ (let ms := reportMetrics s now
      let w := maxMetricWidth ms
      ["| " ++ padRight "Metric" w ++ " | Value |",
       "|" ++ repeatChar '-' w ++ "-|--------|"]
      ++ ms.map (fun p => "| " ++ padRight p.1 w ++ " | " ++ p.2 ++ " |")
      ++ [""])
  ++ statusSection s
  ++ errorSection s
  ++ depthSection s

/-- `SiteCrawler.generate_report`: `"\n".join(report)`. -/
def generate_report (s : SiteCrawler) (partialMark : Bool) (now : Nat) : String :=
  String.intercalate "\n" (reportLines s partialMark now)

/-! ## Association-list lemmas -/

/-- `dget` finds the value just written. -/
theorem dget_dset_self (d : List (String × Nat)) (k : String) (v : Nat) :
    dget (dset d k v) k = some v := by
  induction d with
  | nil => simp [dset, dget]
  | cons p rest ih =>
    obtain ⟨k', v'⟩ := p
    by_cases h : k' = k
    · simp [dset, h, dget]
    · simp [dset, h, dget, ih]

/-- `dset` leaves other keys untouched. -/
theorem dget_dset_ne (d : List (String × Nat)) (k : String) (v : Nat) (u : String)
    (h : u ≠ k) : dget (dset d k v) u = dget d u := by
  induction d with
  | nil => simp [dset, dget, Ne.symm h]
  | cons p rest ih =>
    obtain ⟨k', v'⟩ := p
    by_cases h' : k' = k
    · subst h'
      simp [dset, dget, Ne.symm h]
    · have e : dset ((k', v') :: rest) k v = (k', v') :: dset rest k v := by
        simp [dset, h']
      rw [e]
      by_cases h'' : k' = u <;> simp [dget, h'', ih]

/-- A key is absent exactly when `dget` returns `none`. -/
theorem dget_eq_none_iff (d : List (String × Nat)) (k : String) :
    dget d k = none ↔ k ∉ d.map Prod.fst := by
  induction d with
  | nil => simp [dget]
  | cons p rest ih =>
    obtain ⟨k', v'⟩ := p
    by_cases h : k' = k
    · simp [dget, h]
    · simp [dget, h, ih, Ne.symm h]

/-- Writing a fresh key appends the pair. -/
theorem dset_fresh (d : List (String × Nat)) (k : String) (v : Nat)
    (h : dget d k = none) : dset d k v = d ++ [(k, v)] := by
  induction d with
  | nil => simp [dset]
  | cons p rest ih =>
    obtain ⟨k', v'⟩ := p
    by_cases h' : k' = k
    · simp [dget, h'] at h
    · simp [dget, h'] at h
      simp [dset, h', ih h]

/-- Appending to an error class changes only that class. -/
theorem errGet_errAppend_self (e : List (Nat × List String)) (c : Nat) (u : String) :
    errGet (errAppend e c u) c = errGet e c ++ [u] := by
  induction e with
  | nil => simp [errAppend, errGet]
  | cons p rest ih =>
    obtain ⟨c', l⟩ := p
    by_cases h : c' = c
    · simp [errAppend, h, errGet]
    · simp [errAppend, h, errGet, ih]

/-- Appending to an error class leaves the other classes unchanged. -/
theorem errGet_errAppend_ne (e : List (Nat × List String)) (c : Nat) (u : String)
    (c' : Nat) (h : c' ≠ c) : errGet (errAppend e c u) c' = errGet e c' := by
  induction e with
  | nil => simp [errAppend, errGet, Ne.symm h]
  | cons p rest ih =>
    obtain ⟨c'', l⟩ := p
    by_cases h' : c'' = c
    · subst h'
      simp [errAppend, errGet, Ne.symm h]
    · have e' : errAppend ((c'', l) :: rest) c u = (c'', l) :: errAppend rest c u := by
        simp [errAppend, h']
      rw [e']
      by_cases h'' : c'' = c' <;> simp [errGet, h'', ih]

/-! ## Crawl invariants and monotonicity -/

/-- Facts preserved from a crawler state to any later one: the configuration
attributes never change, the visited set only grows, and a recorded depth or
status is never overwritten (first write wins). -/
structure Mono (s s' : SiteCrawler) : Prop where
  base_eq : s'.base_url = s.base_url
  domain_eq : s'.domain = s.domain
  max_eq : s'.max_depth = s.max_depth
  delay_eq : s'.delay = s.delay
  start_eq : s'.start_time = s.start_time
  vis_mono : ∀ u, u ∈ s.visited_urls → u ∈ s'.visited_urls
  status_mono : ∀ u v, dget s.url_status u = some v → dget s'.url_status u = some v
  depth_mono : ∀ u d, dget s.url_depth u = some d → dget s'.url_depth u = some d

/-- `Mono` is reflexive. -/
theorem monoRefl (s : SiteCrawler) : Mono s s :=
  ⟨rfl, rfl, rfl, rfl, rfl, fun _ h => h, fun _ _ h => h, fun _ _ h => h⟩

/-- `Mono` is transitive. -/
theorem monoTrans {s1 s2 s3 : SiteCrawler} (a : Mono s1 s2) (b : Mono s2 s3) :
    Mono s1 s3 :=
  ⟨b.base_eq.trans a.base_eq, b.domain_eq.trans a.domain_eq, b.max_eq.trans a.max_eq,
   b.delay_eq.trans a.delay_eq, b.start_eq.trans a.start_eq,
   fun u h => b.vis_mono u (a.vis_mono u h),
   fun u v h => b.status_mono u v (a.status_mono u v h),
   fun u d h => b.depth_mono u d (a.depth_mono u d h)⟩

/-- The basic structural invariant of the crawl ledger: every recorded depth
is bounded by `max_depth`, and the keys of `url_depth` and `url_status` are
visited URLs. -/
structure AInv (s : SiteCrawler) : Prop where
  depth_le : ∀ u d, dget s.url_depth u = some d → d ≤ s.max_depth
  depth_vis : ∀ u, (dget s.url_depth u).isSome → u ∈ s.visited_urls
  status_vis : ∀ u, (dget s.url_status u).isSome → u ∈ s.visited_urls

/-- A URL that is not yet visited has no recorded status. -/
theorem fresh_status {s : SiteCrawler} (hs : AInv s) {url : String}
    (hnvis : url ∉ s.visited_urls) : dget s.url_status url = none := by
  cases o : dget s.url_status url with
  | none => rfl
  | some v => exact absurd (hs.status_vis url (by simp [o])) hnvis

/-- A URL that is not yet visited has no recorded depth. -/
theorem fresh_depth {s : SiteCrawler} (hs : AInv s) {url : String}
    (hnvis : url ∉ s.visited_urls) : dget s.url_depth url = none := by
  cases o : dget s.url_depth url with
  | none => rfl
  | some v => exact absurd (hs.depth_vis url (by simp [o])) hnvis

/-- Recording a fresh URL at an admissible depth preserves the invariant. -/
theorem visitStep_ainv {s : SiteCrawler} (hs : AInv s) (url : String) (depth : Nat)
    (hd : depth ≤ s.max_depth) (hnvis : url ∉ s.visited_urls) :
    AInv (visitStep url depth s) ∧ Mono s (visitStep url depth s) := by
  have hfresh := fresh_depth hs hnvis
  constructor
  · constructor
    · intro u d h
      by_cases hu : u = url
      · rw [hu] at h
        rw [show (visitStep url depth s).url_depth = dset s.url_depth url depth from rfl,
          dget_dset_self] at h
        cases h
        simpa [visitStep] using hd
      · rw [show (visitStep url depth s).url_depth = dset s.url_depth url depth from rfl,
          dget_dset_ne _ _ _ _ hu] at h
        simpa [visitStep] using hs.depth_le u d h
    · intro u h
      by_cases hu : u = url
      · simp [visitStep, hu]
      · rw [show (visitStep url depth s).url_depth = dset s.url_depth url depth from rfl,
          dget_dset_ne _ _ _ _ hu] at h
        simp [visitStep]
        exact Or.inl (hs.depth_vis u h)
    · intro u h
      rw [show (visitStep url depth s).url_status = s.url_status from rfl] at h
      simp [visitStep]
      exact Or.inl (hs.status_vis u h)
  · refine ⟨rfl, rfl, rfl, rfl, rfl, ?_, ?_, ?_⟩
    · intro u h; simp [visitStep]; exact Or.inl h
    · intro u v h; exact h
    · intro u d h
      have hu : u ≠ url := by
        intro e; subst e; rw [hfresh] at h; cases h
      rw [show (visitStep url depth s).url_depth = dset s.url_depth url depth from rfl,
        dget_dset_ne _ _ _ _ hu]
      exact h

/-- Writing the status of a visited URL that has none yet preserves the
invariant; stated through field equations so that it applies to both
`failStep` and `respStep`. -/
theorem statusWrite_ainv {s s' : SiteCrawler} {url : String} {v : Nat}
    (hs : AInv s)
    (h1 : s'.base_url = s.base_url) (h2 : s'.domain = s.domain)
    (h3 : s'.max_depth = s.max_depth) (h4 : s'.delay = s.delay)
    (h5 : s'.start_time = s.start_time)
    (h6 : s'.visited_urls = s.visited_urls)
    (h7 : s'.url_depth = s.url_depth)
    (h8 : s'.url_status = dset s.url_status url v)
    (hvis : url ∈ s.visited_urls)
    (hfresh : dget s.url_status url = none) :
    AInv s' ∧ Mono s s' := by
  constructor
  · constructor
    · intro u d h
      rw [h7] at h
      rw [h3]
      exact hs.depth_le u d h
    · intro u h
      rw [h7] at h
      rw [h6]
      exact hs.depth_vis u h
    · intro u h
      rw [h6]
      by_cases hu : u = url
      · subst hu; exact hvis
      · rw [h8, dget_dset_ne _ _ _ _ hu] at h
        exact hs.status_vis u h
  · refine ⟨h1, h2, h3, h4, h5, ?_, ?_, ?_⟩
    · intro u h; rw [h6]; exact h
    · intro u w h
      have hu : u ≠ url := by
        intro e; subst e; rw [hfresh] at h; cases h
      rw [h8, dget_dset_ne _ _ _ _ hu]
      exact h
    · intro u d h; rw [h7]; exact h

/-- `failStep` preserves the invariant (the URL was just visited, its status
was unset). -/
theorem failStep_ainv {s : SiteCrawler} {url : String} (hs : AInv s)
    (hvis : url ∈ s.visited_urls) (hfresh : dget s.url_status url = none) :
    AInv (failStep url s) ∧ Mono s (failStep url s) :=
  statusWrite_ainv hs rfl rfl rfl rfl rfl rfl rfl rfl hvis hfresh

/-- `respStep` preserves the invariant (the URL was just visited, its status
was unset). -/
theorem respStep_ainv {s : SiteCrawler} (url : String) (status : Nat) (hs : AInv s)
    (hvis : url ∈ s.visited_urls) (hfresh : dget s.url_status url = none) :
    AInv (respStep url status s) ∧ Mono s (respStep url status s) := by
  by_cases h400 : 400 ≤ status
  · exact statusWrite_ainv (v := status) hs (by simp [respStep, h400])
      (by simp [respStep, h400]) (by simp [respStep, h400]) (by simp [respStep, h400])
      (by simp [respStep, h400]) (by simp [respStep, h400]) (by simp [respStep, h400])
      (by simp [respStep, h400]) hvis hfresh
  · exact statusWrite_ainv (v := status) hs (by simp [respStep, h400])
      (by simp [respStep, h400]) (by simp [respStep, h400]) (by simp [respStep, h400])
      (by simp [respStep, h400]) (by simp [respStep, h400]) (by simp [respStep, h400])
      (by simp [respStep, h400]) hvis hfresh

/-- The link loop preserves any property that each recursive call
preserves. -/
theorem foldA (f : String → SiteCrawler → SiteCrawler × Bool)
    (hf : ∀ url s, AInv s → AInv (f url s).1 ∧ Mono s (f url s).1) :
    ∀ (links : List String) (acc : SiteCrawler × Bool), AInv acc.1 →
      AInv (links.foldl (crawlFold f) acc).1 ∧
        Mono acc.1 (links.foldl (crawlFold f) acc).1 := by
  intro links
  induction links with
  | nil => intro acc h; exact ⟨h, monoRefl _⟩
  | cons l rest ih =>
    intro acc h
    simp only [List.foldl_cons]
    by_cases h2 : acc.2
    · have e : crawlFold f acc l = acc := by simp [crawlFold, h2]
      rw [e]; exact ih acc h
    · by_cases hm : l ∈ acc.1.visited_urls
      · have e : crawlFold f acc l = acc := by simp [crawlFold, h2, hm]
        rw [e]; exact ih acc h
      · have e : crawlFold f acc l = f l acc.1 := by simp [crawlFold, h2, hm]
        rw [e]
        obtain ⟨ha, hm1⟩ := hf l acc.1 h
        obtain ⟨ha2, hm2⟩ := ih (f l acc.1) ha
        exact ⟨ha2, monoTrans hm1 hm2⟩

/-- Master invariant preservation: `crawl_page` (at any fuel, hence at any
depth) maps a state satisfying `AInv` to one satisfying it, and never
rewrites an existing ledger entry or shrinks the visited set. -/
theorem crawl_pageF_ainv (w : World) :
    ∀ (fuel : Nat) (url : String) (depth : Nat) (s : SiteCrawler), AInv s →
      AInv (crawl_pageF w fuel url depth s).1 ∧
        Mono s (crawl_pageF w fuel url depth s).1 := by
  intro fuel
  induction fuel with
  | zero => intro url depth s hs; exact ⟨hs, monoRefl s⟩
  | succ fuel ih =>
    intro url depth s hs
    rw [crawl_pageF]
    by_cases hguard : depth > s.max_depth ∨ url ∈ s.visited_urls
    · simp only [if_pos hguard]; exact ⟨hs, monoRefl s⟩
    · simp only [if_neg hguard]
      push_neg at hguard
      obtain ⟨hdle, hnvis⟩ := hguard
      have hfresh := fresh_status hs hnvis
      have hv := visitStep_ainv hs url depth (by omega) hnvis
      have hvis1 : url ∈ (visitStep url depth s).visited_urls := by simp [visitStep]
      have hfresh1 : dget (visitStep url depth s).url_status url = none := hfresh
      cases hw : w url with
      | interrupt => exact hv
      | failure =>
        have hfs := failStep_ainv hv.1 hvis1 hfresh1
        exact ⟨hfs.1, monoTrans hv.2 hfs.2⟩
      | response status body =>
        have hrs := respStep_ainv url status hv.1 hvis1 hfresh1
        have hm2 := monoTrans hv.2 hrs.2
        by_cases hcond : status = 200 ∧ depth < s.max_depth
        · simp only [if_pos hcond]
          cases he : extract_links s.domain body url with
          | error e => exact ⟨hrs.1, hm2⟩
          | ok links =>
            have hfold := foldA (fun l st => crawl_pageF w fuel l (depth + 1) st)
              (fun u' s' h' => ih u' (depth + 1) s' h') links
              (respStep url status (visitStep url depth s), false) hrs.1
            exact ⟨hfold.1, monoTrans hm2 hfold.2⟩
        · simp only [if_neg hcond]
          exact ⟨hrs.1, hm2⟩

/-! ## Error-class and request-count invariants -/

/-- The full ledger invariant: `AInv` plus (a) `url_status` has no duplicate
keys, (b) membership in an error class coincides with the recorded status
being that class (`0` or `≥ 400`), (c) only classes `0` and `≥ 400` are
inhabited, and (d) `total_requests` counts the statuses other than the
transport-failure sentinel `0`. -/
structure BInv (s : SiteCrawler) : Prop where
  ainv : AInv s
  status_nodup : (s.url_status.map Prod.fst).Nodup
  err_status : ∀ c u, u ∈ errGet s.error_urls c → dget s.url_status u = some c
  status_err : ∀ u c, dget s.url_status u = some c → c = 0 ∨ 400 ≤ c →
    u ∈ errGet s.error_urls c
  err_class : ∀ c, errGet s.error_urls c ≠ [] → c = 0 ∨ 400 ≤ c
  req_count : s.total_requests = (s.url_status.filter (fun p => p.2 ≠ 0)).length

/-- A fresh status write keeps the keys duplicate-free. -/
theorem nodup_dset {d : List (String × Nat)} {k : String} {v : Nat}
    (hn : (d.map Prod.fst).Nodup) (hfresh : dget d k = none) :
    ((dset d k v).map Prod.fst).Nodup := by
  rw [dset_fresh d k v hfresh, List.map_append]
  simp only [List.map_cons, List.map_nil]
  rw [List.nodup_append]
  refine ⟨hn, List.nodup_singleton k, ?_⟩
  intro a ha hb
  simp only [List.mem_singleton] at hb
  subst hb
  exact (dget_eq_none_iff d a).mp hfresh ha

/-- `visitStep` does not touch status, errors or the request counter. -/
theorem visitStep_binv {s : SiteCrawler} (hs : BInv s) (url : String) (depth : Nat)
    (hd : depth ≤ s.max_depth) (hnvis : url ∉ s.visited_urls) :
    BInv (visitStep url depth s) :=
  ⟨(visitStep_ainv hs.ainv url depth hd hnvis).1, hs.status_nodup, hs.err_status,
   hs.status_err, hs.err_class, hs.req_count⟩

/-- `failStep` on a fresh visited URL preserves the full invariant: the URL
gets status 0 and joins error class 0. -/
theorem failStep_binv {s : SiteCrawler} {url : String} (hs : BInv s)
    (hvis : url ∈ s.visited_urls) (hfresh : dget s.url_status url = none) :
    BInv (failStep url s) := by
  have hane := failStep_ainv hs.ainv hvis hfresh
  have hset : ∀ u, u ≠ url →
      dget (dset s.url_status url 0) u = dget s.url_status u :=
    fun u hu => dget_dset_ne _ _ _ _ hu
  refine ⟨hane.1, ?_, ?_, ?_, ?_, ?_⟩
  · exact nodup_dset hs.status_nodup hfresh
  · intro c u hmem
    show dget (dset s.url_status url 0) u = some c
    by_cases hc : c = 0
    · subst hc
      rw [show (failStep url s).error_urls = errAppend s.error_urls 0 url from rfl,
        errGet_errAppend_self] at hmem
      rcases List.mem_append.mp hmem with hold | hnew
      · have := hs.err_status 0 u hold
        have hu : u ≠ url := by
          intro e; subst e; rw [hfresh] at this; cases this
        rw [hset u hu]; exact this
      · simp only [List.mem_singleton] at hnew
        subst hnew
        exact dget_dset_self _ _ _
    · rw [show (failStep url s).error_urls = errAppend s.error_urls 0 url from rfl,
        errGet_errAppend_ne _ _ _ _ hc] at hmem
      have := hs.err_status c u hmem
      have hu : u ≠ url := by
        intro e; subst e; rw [hfresh] at this; cases this
      rw [hset u hu]; exact this
  · intro u c hget hcls
    show u ∈ errGet (errAppend s.error_urls 0 url) c
    by_cases hu : u = url
    · rw [hu] at hget ⊢
      rw [show (failStep url s).url_status = dset s.url_status url 0 from rfl,
        dget_dset_self] at hget
      have hcs : c = 0 := by injection hget with h; exact h.symm
      subst hcs
      rw [errGet_errAppend_self]
      exact List.mem_append.mpr (Or.inr (by simp))
    · rw [show (failStep url s).url_status = dset s.url_status url 0 from rfl,
        hset u hu] at hget
      have hold := hs.status_err u c hget hcls
      by_cases hc : c = 0
      · subst hc
        rw [errGet_errAppend_self]
        exact List.mem_append.mpr (Or.inl hold)
      · rw [errGet_errAppend_ne _ _ _ _ hc]
        exact hold
  · intro c hne
    by_cases hc : c = 0
    · exact Or.inl hc
    · rw [show (failStep url s).error_urls = errAppend s.error_urls 0 url from rfl,
        errGet_errAppend_ne _ _ _ _ hc] at hne
      exact hs.err_class c hne
  · show s.total_requests = ((dset s.url_status url 0).filter (fun p => p.2 ≠ 0)).length
    rw [dset_fresh _ _ _ hfresh, List.filter_append]
    simp [hs.req_count]

/-- `respStep` with a nonzero status on a fresh visited URL preserves the
full invariant: the counter and the status list grow together, and the URL
joins the error class of its status exactly when that status is `≥ 400`. -/
theorem respStep_binv {s : SiteCrawler} {url : String} {status : Nat} (hs : BInv s)
    (hvis : url ∈ s.visited_urls) (hfresh : dget s.url_status url = none)
    (hnz : status ≠ 0) : BInv (respStep url status s) := by
  have hane := respStep_ainv url status hs.ainv hvis hfresh
  have hset : ∀ u, u ≠ url →
      dget (dset s.url_status url status) u = dget s.url_status u :=
    fun u hu => dget_dset_ne _ _ _ _ hu
  have hstat : (respStep url status s).url_status = dset s.url_status url status := by
    by_cases h400 : 400 ≤ status <;> simp [respStep, h400]
  have herr : (respStep url status s).error_urls =
      (if 400 ≤ status then errAppend s.error_urls status url else s.error_urls) := by
    by_cases h400 : 400 ≤ status <;> simp [respStep, h400]
  have htot : (respStep url status s).total_requests = s.total_requests + 1 := by
    by_cases h400 : 400 ≤ status <;> simp [respStep, h400]
  refine ⟨hane.1, ?_, ?_, ?_, ?_, ?_⟩
  · rw [hstat]; exact nodup_dset hs.status_nodup hfresh
  · intro c u hmem
    rw [hstat]
    rw [herr] at hmem
    by_cases h400 : 400 ≤ status
    · rw [if_pos h400] at hmem
      by_cases hc : c = status
      · subst hc
        rw [errGet_errAppend_self] at hmem
        rcases List.mem_append.mp hmem with hold | hnew
        · have := hs.err_status c u hold
          have hu : u ≠ url := by
            intro e; subst e; rw [hfresh] at this; cases this
          rw [hset u hu]; exact this
        · simp only [List.mem_singleton] at hnew
          subst hnew
          exact dget_dset_self _ _ _
      · rw [errGet_errAppend_ne _ _ _ _ hc] at hmem
        have := hs.err_status c u hmem
        have hu : u ≠ url := by
          intro e; subst e; rw [hfresh] at this; cases this
        rw [hset u hu]; exact this
    · rw [if_neg h400] at hmem
      have := hs.err_status c u hmem
      have hu : u ≠ url := by
        intro e; subst e; rw [hfresh] at this; cases this
      rw [hset u hu]; exact this
  · intro u c hget hcls
    rw [hstat] at hget
    rw [herr]
    by_cases hu : u = url
    · rw [hu] at hget ⊢
      rw [dget_dset_self] at hget
      have hcs : c = status := by injection hget with h; exact h.symm
      rw [hcs] at hcls ⊢
      have h400 : 400 ≤ status := by
        rcases hcls with h0 | h4
        · exact absurd h0 hnz
        · exact h4
      rw [if_pos h400, errGet_errAppend_self]
      exact List.mem_append.mpr (Or.inr (by simp))
    · rw [hset u hu] at hget
      have hold := hs.status_err u c hget hcls
      by_cases h400 : 400 ≤ status
      · rw [if_pos h400]
        by_cases hc : c = status
        · subst hc
          rw [errGet_errAppend_self]
          exact List.mem_append.mpr (Or.inl hold)
        · rw [errGet_errAppend_ne _ _ _ _ hc]
          exact hold
      · rw [if_neg h400]
        exact hold
  · intro c hne
    rw [herr] at hne
    by_cases h400 : 400 ≤ status
    · rw [if_pos h400] at hne
      by_cases hc : c = status
      · subst hc
        exact Or.inr h400
      · rw [errGet_errAppend_ne _ _ _ _ hc] at hne
        exact hs.err_class c hne
    · rw [if_neg h400] at hne
      exact hs.err_class c hne
  · rw [hstat, htot, dset_fresh _ _ _ hfresh, List.filter_append]
    simp [hs.req_count, hnz]

/-- The link loop preserves the full invariant when each recursive call
does. -/
theorem foldB (f : String → SiteCrawler → SiteCrawler × Bool)
    (hf : ∀ url s, BInv s → BInv (f url s).1) :
    ∀ (links : List String) (acc : SiteCrawler × Bool), BInv acc.1 →
      BInv (links.foldl (crawlFold f) acc).1 := by
  intro links
  induction links with
  | nil => intro acc h; exact h
  | cons l rest ih =>
    intro acc h
    simp only [List.foldl_cons]
    by_cases h2 : acc.2
    · have e : crawlFold f acc l = acc := by simp [crawlFold, h2]
      rw [e]; exact ih acc h
    · by_cases hm : l ∈ acc.1.visited_urls
      · have e : crawlFold f acc l = acc := by simp [crawlFold, h2, hm]
        rw [e]; exact ih acc h
      · have e : crawlFold f acc l = f l acc.1 := by simp [crawlFold, h2, hm]
        rw [e]; exact ih (f l acc.1) (hf l acc.1 h)

/-- Master preservation of the full ledger invariant by `crawl_page`, under
the assumption that completed exchanges never report status `0`. -/
theorem crawl_pageF_binv (w : World) (hw : WorldOk w) :
    ∀ (fuel : Nat) (url : String) (depth : Nat) (s : SiteCrawler), BInv s →
      BInv (crawl_pageF w fuel url depth s).1 := by
  intro fuel
  induction fuel with
  | zero => intro url depth s hs; exact hs
  | succ fuel ih =>
    intro url depth s hs
    rw [crawl_pageF]
    by_cases hguard : depth > s.max_depth ∨ url ∈ s.visited_urls
    · simp only [if_pos hguard]; exact hs
    · simp only [if_neg hguard]
      push_neg at hguard
      obtain ⟨hdle, hnvis⟩ := hguard
      have hfresh := fresh_status hs.ainv hnvis
      have hv := visitStep_binv hs url depth (by omega) hnvis
      have hvis1 : url ∈ (visitStep url depth s).visited_urls := by simp [visitStep]
      have hfresh1 : dget (visitStep url depth s).url_status url = none := hfresh
      cases hw' : w url with
      | interrupt => exact hv
      | failure => exact failStep_binv hv hvis1 hfresh1
      | response status body =>
        have hnz : status ≠ 0 := hw url status body hw'
        have hrs := respStep_binv hv hvis1 hfresh1 hnz
        by_cases hcond : status = 200 ∧ depth < s.max_depth
        · simp only [if_pos hcond]
          cases he : extract_links s.domain body url with
          | error e => exact hrs
          | ok links =>
            exact foldB (fun l st => crawl_pageF w fuel l (depth + 1) st)
              (fun u' s' h' => ih u' (depth + 1) s' h') links
              (respStep url status (visitStep url depth s), false) hrs
        · simp only [if_neg hcond]
          exact hrs

/-! ## Status completeness and cancellation -/

/-- Every visited URL has a recorded status (no partial visit record). -/
def Complete (s : SiteCrawler) : Prop :=
  ∀ u, u ∈ s.visited_urls → (dget s.url_status u).isSome

/-- Exactly one visited URL has no recorded status (the URL whose fetch the
`KeyboardInterrupt` cut short). -/
def MissingOne (s : SiteCrawler) : Prop :=
  ∃ m, m ∈ s.visited_urls ∧ dget s.url_status m = none ∧
    ∀ u, u ∈ s.visited_urls → u ≠ m → (dget s.url_status u).isSome

/-- After the bookkeeping of a completed fetch the just-visited URL has a
status, so completeness carries over from the pre-visit state. -/
theorem complete_write {s s' : SiteCrawler} (url : String) (v : Nat)
    (hc : Complete s)
    (h6 : s'.visited_urls = s.visited_urls ++ [url])
    (h8 : s'.url_status = dset s.url_status url v) :
    Complete s' := by
  intro u hu
  rw [h6] at hu
  rw [h8]
  by_cases huu : u = url
  · rw [huu, dget_dset_self]; rfl
  · rcases List.mem_append.mp hu with hold | hnew
    · rw [dget_dset_ne _ _ _ _ huu]
      exact hc u hold
    · simp only [List.mem_singleton] at hnew
      exact absurd hnew huu

/-- The link loop transfers completeness on a normal exit and the
exactly-one-missing property on an interrupted one. -/
theorem foldC (f : String → SiteCrawler → SiteCrawler × Bool)
    (hfA : ∀ url s, AInv s → AInv (f url s).1 ∧ Mono s (f url s).1)
    (hfC : ∀ url s, AInv s → Complete s →
      ((f url s).2 = false → Complete (f url s).1) ∧
      ((f url s).2 = true → MissingOne (f url s).1)) :
    ∀ (links : List String) (acc : SiteCrawler × Bool), AInv acc.1 →
      (acc.2 = false → Complete acc.1) → (acc.2 = true → MissingOne acc.1) →
      (((links.foldl (crawlFold f) acc).2 = false →
          Complete (links.foldl (crawlFold f) acc).1) ∧
        ((links.foldl (crawlFold f) acc).2 = true →
          MissingOne (links.foldl (crawlFold f) acc).1)) := by
  intro links
  induction links with
  | nil => intro acc _ hcf hct; exact ⟨hcf, hct⟩
  | cons l rest ih =>
    intro acc ha hcf hct
    simp only [List.foldl_cons]
    by_cases h2 : acc.2
    · have e : crawlFold f acc l = acc := by simp [crawlFold, h2]
      rw [e]; exact ih acc ha hcf hct
    · by_cases hm : l ∈ acc.1.visited_urls
      · have e : crawlFold f acc l = acc := by simp [crawlFold, h2, hm]
        rw [e]; exact ih acc ha hcf hct
      · have e : crawlFold f acc l = f l acc.1 := by simp [crawlFold, h2, hm]
        rw [e]
        have hacc : Complete acc.1 := hcf (by simpa using h2)
        have hstep := hfC l acc.1 ha hacc
        exact ih (f l acc.1) (hfA l acc.1 ha).1 hstep.1 hstep.2

/-- Master cancellation-consistency theorem: starting from a complete
ledger, `crawl_page` either returns normally with a complete ledger, or is
interrupted and then exactly one visited URL (the one whose fetch was cut
short) lacks a status. -/
theorem crawl_pageF_complete (w : World) :
    ∀ (fuel : Nat) (url : String) (depth : Nat) (s : SiteCrawler),
      AInv s → Complete s →
      (((crawl_pageF w fuel url depth s).2 = false →
          Complete (crawl_pageF w fuel url depth s).1) ∧
        ((crawl_pageF w fuel url depth s).2 = true →
          MissingOne (crawl_pageF w fuel url depth s).1)) := by
  intro fuel
  induction fuel with
  | zero =>
    intro url depth s _ hc
    exact ⟨fun _ => hc, fun h => by cases h⟩
  | succ fuel ih =>
    intro url depth s hs hc
    rw [crawl_pageF]
    by_cases hguard : depth > s.max_depth ∨ url ∈ s.visited_urls
    · simp only [if_pos hguard]
      exact ⟨fun _ => hc, fun h => by cases h⟩
    · simp only [if_neg hguard]
      push_neg at hguard
      obtain ⟨hdle, hnvis⟩ := hguard
      have hfresh := fresh_status hs hnvis
      have hv := visitStep_ainv hs url depth (by omega) hnvis
      have hvis1 : url ∈ (visitStep url depth s).visited_urls := by simp [visitStep]
      have hfresh1 : dget (visitStep url depth s).url_status url = none := hfresh
      cases hw : w url with
      | interrupt =>
        constructor
        · intro h; cases h
        · intro _
          refine ⟨url, hvis1, hfresh1, ?_⟩
          intro u hu hne
          have hu2 : u ∈ s.visited_urls ∨ u = url := by simpa [visitStep] using hu
          have hu' : u ∈ s.visited_urls := by
            rcases hu2 with hold | hnew
            · exact hold
            · exact absurd hnew hne
          exact hc u hu'
      | failure =>
        constructor
        · intro _
          exact complete_write url 0 hc
            (by simp [visitStep, failStep]) rfl
        · intro h; cases h
      | response status body =>
        have hc2 : Complete (respStep url status (visitStep url depth s)) := by
          apply complete_write url status hc
          · by_cases h400 : 400 ≤ status <;> simp [respStep, visitStep, h400]
          · by_cases h400 : 400 ≤ status <;> simp [respStep, visitStep, h400]
        have hrs := respStep_ainv url status hv.1 hvis1 hfresh1
        by_cases hcond : status = 200 ∧ depth < s.max_depth
        · simp only [if_pos hcond]
          cases he : extract_links s.domain body url with
          | error e => exact ⟨fun _ => hc2, fun h => by cases h⟩
          | ok links =>
            exact foldC (fun l st => crawl_pageF w fuel l (depth + 1) st)
              (fun u' s' h' => crawl_pageF_ainv w fuel u' (depth + 1) s' h')
              (fun u' s' h' hc' => ih u' (depth + 1) s' h' hc') links
              (respStep url status (visitStep url depth s), false) hrs.1
              (fun _ => hc2) (fun h => by cases h)
        · simp only [if_neg hcond]
          exact ⟨fun _ => hc2, fun h => by cases h⟩

/-- In a world that never raises `KeyboardInterrupt`, `crawl_page` always
returns normally: per-URL failures are contained. -/
theorem crawl_pageF_flag (w : World) (hni : ∀ u, w u ≠ FetchResult.interrupt) :
    ∀ (fuel : Nat) (url : String) (depth : Nat) (s : SiteCrawler),
      (crawl_pageF w fuel url depth s).2 = false := by
  intro fuel
  induction fuel with
  | zero => intro url depth s; rfl
  | succ fuel ih =>
    intro url depth s
    rw [crawl_pageF]
    by_cases hguard : depth > s.max_depth ∨ url ∈ s.visited_urls
    · simp only [if_pos hguard]
    · simp only [if_neg hguard]
      cases hw : w url with
      | interrupt => exact absurd hw (hni url)
      | failure => rfl
      | response status body =>
        by_cases hcond : status = 200 ∧ depth < s.max_depth
        · simp only [if_pos hcond]
          cases he : extract_links s.domain body url with
          | error e => rfl
          | ok links =>
            have : ∀ (ls : List String) (acc : SiteCrawler × Bool), acc.2 = false →
                (ls.foldl (crawlFold (fun l st => crawl_pageF w fuel l (depth + 1) st))
                  acc).2 = false := by
              intro ls
              induction ls with
              | nil => intro acc h; exact h
              | cons l rest ihl =>
                intro acc h
                simp only [List.foldl_cons]
                by_cases h2 : acc.2
                · rw [h2] at h; cases h
                · by_cases hm : l ∈ acc.1.visited_urls
                  · have e : crawlFold (fun l st => crawl_pageF w fuel l (depth + 1) st)
                        acc l = acc := by simp [crawlFold, h2, hm]
                    rw [e]; exact ihl acc h
                  · have e : crawlFold (fun l st => crawl_pageF w fuel l (depth + 1) st)
                        acc l = crawl_pageF w fuel l (depth + 1) acc.1 := by
                      simp [crawlFold, h2, hm]
                    rw [e]
                    exact ihl _ (ih l (depth + 1) acc.1)
            exact this links _ rfl
        · simp only [if_neg hcond]

/-! ## Admission-filter property of link extraction -/

/-- Members of `listAdd l u` are members of `l` or equal to `u`. -/
theorem mem_listAdd {l : List String} {u x : String} (h : x ∈ listAdd l u) :
    x ∈ l ∨ x = u := by
  by_cases hm : u ∈ l
  · simp [listAdd, hm] at h
    exact Or.inl h
  · simp [listAdd, hm] at h
    exact h

/-- Every URL the extraction loop returns passes the admission filter. -/
theorem extractLoop_valid (domain cur : String) :
    ∀ (ms : List (List Char)) (acc links : List String),
      (∀ l ∈ acc, is_valid_url domain l = Except.ok true) →
      extractLoop domain cur ms acc = Except.ok links →
      ∀ l ∈ links, is_valid_url domain l = Except.ok true := by
  intro ms
  induction ms with
  | nil =>
    intro acc links hacc h
    rw [extractLoop] at h
    cases h
    exact hacc
  | cons m rest ih =>
    intro acc links hacc h
    rw [extractLoop] at h
    split at h
    · cases h
    · split at h
      · cases h
      · dsimp only at h
        split at h
        · cases h
        · rename_i parsed hp ok hv
          refine ih _ links ?_ h
          intro l hl
          cases ok with
          | true =>
            rw [if_pos rfl] at hl
            rcases mem_listAdd hl with hold | hnew
            · exact hacc l hold
            · rw [hnew]; exact hv
          | false =>
            rw [if_neg (by simp)] at hl
            exact hacc l hl

/-- Every URL `extract_links` returns passes the admission filter. -/
theorem extract_links_valid {domain body cur : String} {links : List String}
    (h : extract_links domain body cur = Except.ok links) :
    ∀ l ∈ links, is_valid_url domain l = Except.ok true :=
  extractLoop_valid domain cur (hrefMatches body.data) [] links
    (fun l hl => absurd hl (List.not_mem_nil l)) h

/-! ## Concrete worlds and states used by the scenario theorems -/

/-- The crawler instance `SiteCrawler("https://ex.com", max_depth=2,
delay=1.0)` right after construction (time 0). -/
def exCrawler : SiteCrawler :=
  { base_url := "https://ex.com"
    domain := "ex.com"
    max_depth := 2
    delay := 100
    visited_urls := []
    url_status := []
    url_depth := []
    error_urls := []
    total_requests := 0
    start_time := 0 }

/-- A same-domain chain: the root links to `/a`, `/a` links to `/b`, `/b`
links to `/c`; every page responds 200. -/
def chainWorld : World := fun u =>
  if u = "https://ex.com" then FetchResult.response 200 "<a href=\"/a\">"
  else if u = "https://ex.com/a" then FetchResult.response 200 "<a href=\"/b\">"
  else if u = "https://ex.com/b" then FetchResult.response 200 "<a href=\"/c\">"
  else if u = "https://ex.com/c" then FetchResult.response 200 ""
  else FetchResult.failure

/-- A network where every request raises a transport error. -/
def failWorld : World := fun _ => FetchResult.failure

/-- The root responds, its link's fetch is cut short by `KeyboardInterrupt`. -/
def intrWorld : World := fun u =>
  if u = "https://ex.com" then FetchResult.response 200 "<a href=\"/a\">"
  else FetchResult.interrupt

/-- The root's body contains a href whose cleaned form makes `urlparse`
raise inside `is_valid_url` (an extraction failure). -/
def badBody : String := "<a href=\"s:[x\">"

/-- `chainWorld` never reports status 0. -/
theorem chainWorld_ok : WorldOk chainWorld := by
  intro u st body h
  unfold chainWorld at h
  split at h
  · cases h; omega
  · split at h
    · cases h; omega
    · split at h
      · cases h; omega
      · split at h
        · cases h; omega
        · cases h

/-- `failWorld` never reports status 0 (it never responds at all). -/
theorem failWorld_ok : WorldOk failWorld := by
  intro u st body h
  cases h

/-- `failWorld` never interrupts. -/
theorem failWorld_no_interrupt : ∀ u, failWorld u ≠ FetchResult.interrupt := by
  intro u h
  cases h

/-- A freshly constructed crawler satisfies the full ledger invariant. -/
theorem binv_empty (s : SiteCrawler)
    (h2 : s.url_status = []) (h3 : s.url_depth = []) (h4 : s.error_urls = [])
    (h5 : s.total_requests = 0) : BInv s := by
  refine ⟨⟨?_, ?_, ?_⟩, ?_, ?_, ?_, ?_, ?_⟩
  · intro u d h; rw [h3] at h; cases h
  · intro u h; rw [h3] at h; cases h
  · intro u h; rw [h2] at h; cases h
  · rw [h2]; exact List.nodup_nil
  · intro c u h
    rw [h4] at h
    cases h
  · intro u c h _; rw [h2] at h; cases h
  · intro c h; rw [h4] at h; exact absurd rfl h
  · rw [h2, h5]; rfl

/-- A freshly constructed crawler has a (vacuously) complete ledger. -/
theorem complete_empty (s : SiteCrawler) (h1 : s.visited_urls = []) : Complete s := by
  intro u h
  rw [h1] at h
  cases h

/-- Did this `Except` computation return normally (no exception)? -/
def exceptOk {e a : Type} : Except e a → Bool
  | Except.ok _ => true
  | Except.error _ => false

/-- The root's body contains a href (`s:[x`) whose cleaned form
`s://[x` makes `urlparse` raise inside `is_valid_url`: link extraction
fails on this page. -/
def badWorld : World := fun u =>
  if u = "https://ex.com" then FetchResult.response 200 badBody
  else FetchResult.failure

/-- The state after fully crawling `chainWorld` from `exCrawler`. -/
def chainCrawled : SiteCrawler := (SiteCrawler.crawl chainWorld exCrawler).1

/-- The Duration row of the metrics table: the only line of the report that
depends on the report-generation time (19 is the computed width of the
metric column). -/
def durationRow (s : SiteCrawler) (now : Nat) : String :=
  "| " ++ padRight "Duration" 19 ++ " | " ++ (fmtCenti (now - s.start_time) ++ " seconds") ++ " |"

/-! ## Claim theorems -/

/-- C1: every URL recorded in the ledger at any point during or after a
crawl has recorded depth at most `max_depth`.  Stated as an invariant of
`crawl_page` at every fuel (hence at every recursive call, so it holds for
every intermediate state as well), together with the `crawl()` entry point
itself. -/
theorem claim_C1_depth_bounded (w : World) (s : SiteCrawler) (hs : AInv s) :
    (∀ (fuel : Nat) (url : String) (depth : Nat) (u : String) (d : Nat),
      dget (crawl_pageF w fuel url depth s).1.url_depth u = some d →
        d ≤ s.max_depth) ∧
    (∀ (u : String) (d : Nat),
      dget (s.crawl w).1.url_depth u = some d → d ≤ s.max_depth) := by
  constructor
  · intro fuel url depth u d h
    obtain ⟨ha, hm⟩ := crawl_pageF_ainv w fuel url depth s hs
    have := ha.depth_le u d h
    rwa [hm.max_eq] at this
  · intro u d h
    obtain ⟨ha, hm⟩ := crawl_pageF_ainv w (s.max_depth + 1 - 0) s.base_url 0 s hs
    have := ha.depth_le u d h
    rwa [hm.max_eq] at this

/-- C1 witness: the empty crawler satisfies the invariant's hypothesis, and
instantiating the theorem on the concrete chain crawl bounds the depth
recorded for `/a`. -/
theorem claim_C1_depth_bounded_witness :
    AInv exCrawler ∧ 1 ≤ exCrawler.max_depth :=
  ⟨(binv_empty exCrawler rfl rfl rfl rfl).ainv,
    (claim_C1_depth_bounded chainWorld exCrawler
      (binv_empty exCrawler rfl rfl rfl rfl).ainv).1 3 "https://ex.com" 0
      "https://ex.com/a" 1 (by decide)⟩

/-- C2: after `crawl_page` completes (from any state satisfying the ledger
invariant, in a world whose completed exchanges carry nonzero statuses):
status 0 implies membership in error class 0, status ≥ 400 implies
membership in that status's class, and a URL with status 200 is in no error
class. -/
theorem claim_C2_error_classes (w : World) (hw : WorldOk w) (s : SiteCrawler)
    (hs : BInv s) (url : String) (depth : Nat) :
    (∀ u, dget (crawl_page w url depth s).1.url_status u = some 0 →
      u ∈ errGet (crawl_page w url depth s).1.error_urls 0) ∧
    (∀ u c, dget (crawl_page w url depth s).1.url_status u = some c → 400 ≤ c →
      u ∈ errGet (crawl_page w url depth s).1.error_urls c) ∧
    (∀ u, dget (crawl_page w url depth s).1.url_status u = some 200 →
      ∀ c, u ∉ errGet (crawl_page w url depth s).1.error_urls c) := by
  have hb := crawl_pageF_binv w hw (s.max_depth + 1 - depth) url depth s hs
  refine ⟨?_, ?_, ?_⟩
  · intro u h
    exact hb.status_err u 0 h (Or.inl rfl)
  · intro u c h hc
    exact hb.status_err u c h (Or.inr hc)
  · intro u h200 c hmem
    have hc := hb.err_status c u hmem
    have h200' : dget (crawl_pageF w (s.max_depth + 1 - depth) url depth s).1.url_status
        u = some 200 := h200
    rw [h200'] at hc
    have hceq : c = 200 := by simpa using hc.symm
    have hcls := hb.err_class c (List.ne_nil_of_mem hmem)
    omega

/-- C2 witness: in the all-failures world the root ends with status 0 and is
a member of error class 0. -/
theorem claim_C2_error_classes_witness :
    WorldOk failWorld ∧ BInv exCrawler ∧
      "https://ex.com" ∈
        errGet (crawl_page failWorld "https://ex.com" 0 exCrawler).1.error_urls 0 :=
  ⟨failWorld_ok, binv_empty exCrawler rfl rfl rfl rfl,
    (claim_C2_error_classes failWorld failWorld_ok exCrawler
        (binv_empty exCrawler rfl rfl rfl rfl) "https://ex.com" 0).1
      "https://ex.com" (by decide)⟩

/-- C3: `crawl_page` on an already-visited URL is a no-op returning the
state unchanged (in particular no fetch happens: `total_requests` and
everything else are untouched), and a recorded depth is never overwritten
afterwards — the first recorded depth is permanent. -/
theorem claim_C3_revisit_noop (w : World) (s : SiteCrawler) :
    (∀ (url : String) (depth : Nat), url ∈ s.visited_urls →
      crawl_page w url depth s = (s, false)) ∧
    (AInv s → ∀ (fuel : Nat) (url : String) (depth : Nat) (u : String) (d0 : Nat),
      dget s.url_depth u = some d0 →
      dget (crawl_pageF w fuel url depth s).1.url_depth u = some d0) := by
  constructor
  · intro url depth hmem
    rw [crawl_page]
    cases hf : s.max_depth + 1 - depth with
    | zero => rfl
    | succ n =>
      rw [crawl_pageF]
      rw [if_pos (Or.inr hmem)]
  · intro hs fuel url depth u d0 h
    exact (crawl_pageF_ainv w fuel url depth s hs).2.depth_mono u d0 h

/-- C3 witness: revisiting the already-crawled root of the chain world is a
no-op, and the depth recorded for the root survives a later call. -/
theorem claim_C3_revisit_noop_witness :
    "https://ex.com" ∈ chainCrawled.visited_urls ∧
    crawl_page chainWorld "https://ex.com" 0 chainCrawled = (chainCrawled, false) ∧
    dget (crawl_pageF chainWorld 1 "https://ex.com/d" 2 chainCrawled).1.url_depth
      "https://ex.com" = some 0 :=
  ⟨by decide,
    (claim_C3_revisit_noop chainWorld chainCrawled).1 "https://ex.com" 0 (by decide),
    (claim_C3_revisit_noop chainWorld chainCrawled).2
      ((crawl_pageF_ainv chainWorld 3 "https://ex.com" 0 exCrawler
        (binv_empty exCrawler rfl rfl rfl rfl).ainv).1)
      1 "https://ex.com/d" 2 "https://ex.com" 0 (by decide)⟩

/-- C4: depth-bounded traversal on the concrete chain
root → `/a` → `/b` → `/c` with `max_depth = 2`: the crawler constructed by
`SiteCrawler("https://ex.com", 2, 1.0)` records the root at depth 0, `/a`
at 1, `/b` at 2, and never visits `/c`. -/
theorem claim_C4_depth_limit :
    SiteCrawler.init "https://ex.com" 2 100 0 = Except.ok exCrawler ∧
    dget (exCrawler.crawl chainWorld).1.url_depth "https://ex.com" = some 0 ∧
    dget (exCrawler.crawl chainWorld).1.url_depth "https://ex.com/a" = some 1 ∧
    dget (exCrawler.crawl chainWorld).1.url_depth "https://ex.com/b" = some 2 ∧
    "https://ex.com/c" ∉ (exCrawler.crawl chainWorld).1.visited_urls ∧
    dget (exCrawler.crawl chainWorld).1.url_depth "https://ex.com/c" = none :=
  ⟨rfl, by decide, by decide, by decide, by decide, by decide⟩

/-- C5: link extraction resolves hrefs against the page URL, strips query
and fragment to `scheme://host/path`, and keeps exactly the URLs passing
the admission filter: on the concrete body the result is exactly
`{https://same.com/p1, https://same.com/p2}`, and in general every returned
URL passes `is_valid_url`. -/
theorem claim_C5_extract_links :
    extract_links "same.com"
      "<a href=\"/p1\"> <a href=\"https://same.com/p2\"> <a href=\"https://other.com/x\"> <a href=\"/p3.pdf\">"
      "https://same.com/"
      = Except.ok ["https://same.com/p1", "https://same.com/p2"] ∧
    (∀ (domain body cur : String) (links : List String),
      extract_links domain body cur = Except.ok links →
      ∀ l ∈ links, is_valid_url domain l = Except.ok true) :=
  ⟨rfl, fun _ _ _ _ h => extract_links_valid h⟩

/-- C5 witness: the general admission property instantiated on the concrete
extraction. -/
theorem claim_C5_extract_links_witness :
    is_valid_url "same.com" "https://same.com/p1" = Except.ok true :=
  claim_C5_extract_links.2 "same.com"
    "<a href=\"/p1\"> <a href=\"https://same.com/p2\"> <a href=\"https://other.com/x\"> <a href=\"/p3.pdf\">"
    "https://same.com/" ["https://same.com/p1", "https://same.com/p2"] rfl
    "https://same.com/p1" (by decide)

/-- C6 counterexample: `is_valid_url` is not total — on `"http://["`
(mismatched bracket in the authority) the underlying `urlparse` raises
`ValueError("Invalid IPv6 URL")`, which escapes `is_valid_url` instead of
yielding `False`. -/
theorem claim_C6_counterexample :
    is_valid_url "same.com" "http://[" = Except.error "Invalid IPv6 URL" := rfl

/-- C6 amended: `is_valid_url` returns a boolean for every input that
`urlparse` accepts; on inputs whose authority has mismatched square
brackets it propagates `urlparse`'s `ValueError` unchanged (inside the
crawler such exceptions are contained by `crawl_page`). -/
theorem claim_C6_total_on_parseable (domain url : String) :
    (exceptOk (urlparse url) = true → exceptOk (is_valid_url domain url) = true) ∧
    (∀ e, urlparse url = Except.error e →
      is_valid_url domain url = Except.error e) := by
  constructor
  · intro h
    cases hp : urlparse url with
    | error e => rw [hp] at h; cases h
    | ok p =>
      unfold is_valid_url
      rw [hp]
      dsimp only
      split
      · rfl
      · split
        · rfl
        · split
          · rfl
          · split <;> rfl
  · intro e hp
    unfold is_valid_url
    rw [hp]

/-- C6 witness: a well-formed URL parses, so the filter returns a boolean
on it. -/
theorem claim_C6_total_on_parseable_witness :
    exceptOk (urlparse "https://same.com/p1") = true ∧
    exceptOk (is_valid_url "same.com" "https://same.com/p1") = true :=
  ⟨by decide,
    (claim_C6_total_on_parseable "same.com" "https://same.com/p1").1 (by decide)⟩

/-- C7: per-URL failure containment.  (a) In a world without
`KeyboardInterrupt`, `crawl_page` always returns normally, whatever each
fetch does; (b) a transport failure only adds the ledger bookkeeping of
status 0 (`failStep`) and returns; (c) when link extraction raises, the
page keeps its response bookkeeping (`respStep`), contributes zero links
(no descendant visits), and the crawl continues. -/
theorem claim_C7_failure_containment (w : World) :
    ((∀ u, w u ≠ FetchResult.interrupt) → ∀ (fuel : Nat) (url : String)
      (depth : Nat) (s : SiteCrawler), (crawl_pageF w fuel url depth s).2 = false) ∧
    (∀ (url : String) (depth : Nat) (s : SiteCrawler),
      depth ≤ s.max_depth → url ∉ s.visited_urls →
      w url = FetchResult.failure →
      crawl_page w url depth s = (failStep url (visitStep url depth s), false)) ∧
    (∀ (url : String) (depth : Nat) (s : SiteCrawler) (status : Nat) (body e : String),
      depth ≤ s.max_depth → url ∉ s.visited_urls →
      w url = FetchResult.response status body →
      status = 200 → depth < s.max_depth →
      extract_links s.domain body url = Except.error e →
      crawl_page w url depth s = (respStep url status (visitStep url depth s), false)) := by
  refine ⟨crawl_pageF_flag w, ?_, ?_⟩
  · intro url depth s hd hnvis hw
    have hf : s.max_depth + 1 - depth = (s.max_depth - depth) + 1 := by omega
    rw [crawl_page, hf, crawl_pageF]
    rw [if_neg (by push_neg; exact ⟨by omega, hnvis⟩)]
    rw [hw]
  · intro url depth s status body e hd hnvis hw h200 hlt he
    have hf : s.max_depth + 1 - depth = (s.max_depth - depth) + 1 := by omega
    rw [crawl_page, hf, crawl_pageF]
    rw [if_neg (by push_neg; exact ⟨by omega, hnvis⟩)]
    rw [hw]
    dsimp only
    rw [if_pos ⟨h200, hlt⟩, he]

/-- C7 witness: concrete transport failure and concrete extraction failure,
each contained. -/
theorem claim_C7_failure_containment_witness :
    (crawl_pageF failWorld 3 "https://ex.com" 0 exCrawler).2 = false ∧
    crawl_page failWorld "https://ex.com" 0 exCrawler
      = (failStep "https://ex.com" (visitStep "https://ex.com" 0 exCrawler), false) ∧
    crawl_page badWorld "https://ex.com" 0 exCrawler
      = (respStep "https://ex.com" 200 (visitStep "https://ex.com" 0 exCrawler), false) :=
  ⟨(claim_C7_failure_containment failWorld).1 failWorld_no_interrupt 3
      "https://ex.com" 0 exCrawler,
    (claim_C7_failure_containment failWorld).2.1 "https://ex.com" 0 exCrawler
      (by decide) (by decide) rfl,
    (claim_C7_failure_containment badWorld).2.2 "https://ex.com" 0 exCrawler
      200 badBody "Invalid IPv6 URL" (by decide) (by decide) rfl rfl (by decide) rfl⟩

/-- C8 counterexample: an interrupt arriving during the fetch of `/a` makes
control leave the orchestrator (the flag records the unwinding
`KeyboardInterrupt`) while `/a` sits in `visited_urls` with no entry in
`url_status` — a partial visit record, contradicting the claim.
(`generate_report` indeed anticipates this: it prints `Unknown` for a
missing status.) -/
theorem claim_C8_counterexample :
    (exCrawler.crawl intrWorld).2 = true ∧
    "https://ex.com/a" ∈ (exCrawler.crawl intrWorld).1.visited_urls ∧
    dget (exCrawler.crawl intrWorld).1.url_status "https://ex.com/a" = none :=
  ⟨by decide, by decide, by decide⟩

/-- C8 amended: starting from a complete ledger, a `crawl_page` call that
returns normally leaves every visited URL with a status; a call interrupted
during a fetch leaves exactly one visited URL (the in-flight one) without a
status.  Moreover a status, once written, is never rewritten, and statuses
are only recorded for URLs already inserted into the visited set. -/
theorem claim_C8_cancellation (w : World) (s : SiteCrawler)
    (hs : AInv s) (hc : Complete s) (fuel : Nat) (url : String) (depth : Nat) :
    ((crawl_pageF w fuel url depth s).2 = false →
      Complete (crawl_pageF w fuel url depth s).1) ∧
    ((crawl_pageF w fuel url depth s).2 = true →
      MissingOne (crawl_pageF w fuel url depth s).1) ∧
    (∀ u v, dget s.url_status u = some v →
      dget (crawl_pageF w fuel url depth s).1.url_status u = some v) ∧
    (∀ u, (dget (crawl_pageF w fuel url depth s).1.url_status u).isSome →
      u ∈ (crawl_pageF w fuel url depth s).1.visited_urls) := by
  obtain ⟨h1, h2⟩ := crawl_pageF_complete w fuel url depth s hs hc
  obtain ⟨ha, hm⟩ := crawl_pageF_ainv w fuel url depth s hs
  exact ⟨h1, h2, hm.status_mono, ha.status_vis⟩

/-- C8 witness: the empty ledger is complete, and the interrupted chain
crawl leaves exactly one URL without a status. -/
theorem claim_C8_cancellation_witness :
    AInv exCrawler ∧ Complete exCrawler ∧
    MissingOne (crawl_pageF intrWorld 3 "https://ex.com" 0 exCrawler).1 :=
  ⟨(binv_empty exCrawler rfl rfl rfl rfl).ainv, complete_empty exCrawler rfl,
    (claim_C8_cancellation intrWorld exCrawler
        (binv_empty exCrawler rfl rfl rfl rfl).ainv (complete_empty exCrawler rfl)
        3 "https://ex.com" 0).2.1 (by decide)⟩

/-- C9 counterexample: two `generate_report` calls on the same ledger at
different wall-clock times produce different text (the Duration row
changes), so report rendering is not idempotent as claimed. -/
theorem claim_C9_counterexample :
    generate_report exCrawler false 0 ≠ generate_report exCrawler false 100 := by
  decide

/-- C9 amended: report rendering is a deterministic function of the ledger,
the partial flag and the rendering time, and the rendering time influences
exactly one line — the Duration row: the surrounding lines `pre` and `post`
do not depend on it.  In particular two calls at the same elapsed duration
yield identical text. -/
theorem claim_C9_report_determinism (s : SiteCrawler) (p : Bool) :
    ∃ pre post : List String,
      (∀ now : Nat, reportLines s p now = pre ++ durationRow s now :: post) ∧
      (∀ t1 t2 : Nat, t1 - s.start_time = t2 - s.start_time →
        generate_report s p t1 = generate_report s p t2) := by
  refine ⟨["# Site Crawler Report: " ++ s.base_url ++ "\n"]
      ++ (if p then ["⚠️ **PARTIAL REPORT** - Crawling was interrupted\n"] else [])
      ++ ["| " ++ padRight "Metric" 19 ++ " | Value |",
          "|" ++ repeatChar '-' 19 ++ "-|--------|",
          "| " ++ padRight "Base URL" 19 ++ " | " ++ s.base_url ++ " |",
          "| " ++ padRight "Domain" 19 ++ " | " ++ s.domain ++ " |",
          "| " ++ padRight "Start Time" 19 ++ " | "
            ++ formatStartTime s.start_time ++ " |"],
    ["| " ++ padRight "Total Requests" 19 ++ " | "
        ++ toString s.total_requests ++ " |",
      "| " ++ padRight "Total Pages Visited" 19 ++ " | "
        ++ toString s.visited_urls.length ++ " |",
      "| " ++ padRight "Max Depth Reached" 19 ++ " | "
        ++ toString (maxDepthReached s) ++ " |",
      ""] ++ statusSection s ++ errorSection s ++ depthSection s, ?_, ?_⟩
  · intro now
    cases p <;> rfl
  · intro t1 t2 h
    unfold generate_report reportLines reportMetrics
    rw [h]

/-- C10: the implicit request-count invariant.  After any sequence of
`crawl_page` calls from a state satisfying the ledger invariant (in a world
whose completed exchanges have nonzero status), `total_requests` equals the
number of URLs with a recorded status other than 0: transport failures and
interrupted fetches are not counted, completed exchanges are. -/
theorem claim_C10_request_count (w : World) (hw : WorldOk w) (s : SiteCrawler)
    (hs : BInv s) (calls : List (String × Nat)) :
    ((calls.foldl (fun st c => (crawl_page w c.1 c.2 st).1) s).url_status.map
      Prod.fst).Nodup ∧
    (calls.foldl (fun st c => (crawl_page w c.1 c.2 st).1) s).total_requests =
      ((calls.foldl (fun st c => (crawl_page w c.1 c.2 st).1) s).url_status.filter
        (fun p => p.2 ≠ 0)).length := by
  have hb : BInv (calls.foldl (fun st c => (crawl_page w c.1 c.2 st).1) s) := by
    induction calls generalizing s with
    | nil => exact hs
    | cons c rest ih =>
      simp only [List.foldl_cons]
      exact ih _ (crawl_pageF_binv w hw _ c.1 c.2 s hs)
  exact ⟨hb.status_nodup, hb.req_count⟩

/-- C10 witness: one crawl of the chain world issues three requests, which
matches the number of nonzero recorded statuses. -/
theorem claim_C10_request_count_witness :
    WorldOk chainWorld ∧ BInv exCrawler ∧
    ([("https://ex.com", 0)].foldl
        (fun st c => (crawl_page chainWorld c.1 c.2 st).1) exCrawler).total_requests =
      (([("https://ex.com", 0)].foldl
          (fun st c => (crawl_page chainWorld c.1 c.2 st).1)
          exCrawler).url_status.filter (fun p => p.2 ≠ 0)).length :=
  ⟨chainWorld_ok, binv_empty exCrawler rfl rfl rfl rfl,
    (claim_C10_request_count chainWorld chainWorld_ok exCrawler
      (binv_empty exCrawler rfl rfl rfl rfl) [("https://ex.com", 0)]).2⟩
